import Mathlib

/-!
# cutedoc.js

A shallow embedding of `src/documentation/cutedoc.js`: the colouring pass over
`.decl` elements, the recursive navigation list builder `list`, the module link
fix, the panel toggles and the cookie helpers, followed by the properties of
the specification that were checked against them.

Conventions of the embedding:

* a JavaScript string is a finite sequence of UTF-16 code units; it is modelled
  by `List Char`, one `Char` per code unit;
* a DOM node is a text node or an element with a tag, attributes and child
  nodes; a jQuery set is the list of its elements in document order;
* `undefined` / `null` results are `Option.none`.
-/

set_option maxRecDepth 8000

namespace Cutedoc

/-- A JavaScript string, one `Char` per code unit. -/
abbrev Str := List Char

/-! ## String primitives of the host language -/

/-- Worker of `indexOf`: the search for `pat` in the rest of the string, `k`
code units having been passed already. -/
def indexOfFrom (pat : Str) : Str → Nat → Int
  | [], k => if pat = [] then (k : Int) else -1
  | c :: cs, k => if pat <+: c :: cs then (k : Int) else indexOfFrom pat cs (k + 1)

/-- The call `s.indexOf(pat)`: the first position at which `pat` occurs in `s`,
and `-1` when it occurs nowhere. -/
def indexOf (s pat : Str) : Int := indexOfFrom pat s 0

/-- The call `s.charAt(i)`: the one-unit string at position `i`, the empty
string when `i` is out of range. -/
def charAt (s : Str) (i : Nat) : Str := (s.drop i).take 1

/-- The call `s.substring(a, b)` for non-negative arguments: both are clamped
to the length and swapped when out of order. -/
def substring (s : Str) (a b : Nat) : Str :=
  let a1 := min a s.length
  let b1 := min b s.length
  (s.drop (min a1 b1)).take (max a1 b1 - min a1 b1)

/-- The call `s.substr(start, length)`: a negative `start` counts from the end,
a `length` that is zero or negative gives the empty string. -/
def substr (s : Str) (start length : Int) : Str :=
  let size : Int := s.length
  let from_ : Int := if start < 0 then max (size + start) 0 else min start size
  let len : Int := min (max length 0) (size - from_)
  if len ≤ 0 then [] else (s.drop from_.toNat).take len.toNat

/-- The call `s.split(sep)` for a one-unit separator: the pieces between the
separators; a string without separator is its own single piece. -/
def split (sep : Char) : Str → List Str
  | [] => [[]]
  | c :: cs =>
    if c = sep then [] :: split sep cs
    else
      match split sep cs with
      | [] => [[c]]
      | p :: ps => (c :: p) :: ps

/-- The call `s.replace(/\./g, '_')`: every full stop becomes an underscore. -/
def replaceDots (s : Str) : Str := s.map fun c => if c = '.' then '_' else c

/-! ## The document model -/

/-- A DOM node. -/
inductive Node where
  | text (data : Str)
  | elem (tag : Str) (attrs : List (Str × Str)) (kids : List Node)

namespace Node

/-- The child nodes of a node. -/
def kids : Node → List Node
  | text _ => []
  | elem _ _ ks => ks

/-- Whether the node is an element. -/
def isElem : Node → Bool
  | text _ => false
  | elem _ _ _ => true

/-- Whether the node is an element with the given tag. -/
def hasTag (t : Str) : Node → Bool
  | text _ => false
  | elem tag _ _ => tag == t

/-- The value of attribute `name`, if the element carries it. -/
def attr (name : Str) : Node → Option Str
  | text _ => none
  | elem _ attrs _ => (attrs.find? fun p => p.1 == name).map Prod.snd

/-- The `className` property: the `class` attribute, empty when absent. -/
def className (n : Node) : Str := (n.attr "class".toList).getD []

end Node

open Node

/-- jQuery turns tab, line feed and carriage return of a class name into blanks
before it looks a class up. -/
def blankWhitespace (s : Str) : Str :=
  s.map fun c => if c = '\t' ∨ c = '\n' ∨ c = '\r' then ' ' else c

/-- The call `$this.hasClass(c)` of jQuery: `" c "` occurs in the blank-padded
class name of the element. -/
def hasClass (n : Node) (c : Str) : Bool :=
  n.isElem && decide (0 ≤ indexOf (' ' :: blankWhitespace n.className ++ [' ']) (' ' :: c ++ [' ']))

/-- The call `$this.children()` on one element: its child elements. -/
def children (n : Node) : List Node := n.kids.filter isElem

mutual
/-- The call `$this.text()` on one node: the text of all text nodes below it,
in document order. -/
def textOf : Node → Str
  | .text d => d
  | .elem _ _ ks => textOfAll ks
/-- The text of a sequence of nodes. -/
def textOfAll : List Node → Str
  | [] => []
  | n :: ns => textOf n ++ textOfAll ns
end

mutual
/-- The elements strictly below a node, in document order. -/
def descendants : Node → List Node
  | .text _ => []
  | .elem _ _ ks => descendantsAll ks
/-- The elements at or below the nodes of a sequence, in document order. -/
def descendantsAll : List Node → List Node
  | [] => []
  | n :: ns => (if n.isElem then [n] else []) ++ (descendants n ++ descendantsAll ns)
end

/-- The call `$this.find(tag)` for a tag selector. -/
def find (n : Node) (tag : Str) : List Node := (descendants n).filter (hasTag tag)

/-- Text of a text node as the browser writes it into markup. -/
def escapeText : Str → Str
  | [] => []
  | c :: cs =>
    (if c = '&' then "&amp;".toList else if c = '<' then "&lt;".toList
     else if c = '>' then "&gt;".toList else if c = Char.ofNat 160 then "&nbsp;".toList
     else [c]) ++ escapeText cs

/-- An attribute value as the browser writes it into markup. -/
def escapeAttr : Str → Str
  | [] => []
  | c :: cs =>
    (if c = '&' then "&amp;".toList else if c = '"' then "&quot;".toList
     else if c = Char.ofNat 160 then "&nbsp;".toList else [c]) ++ escapeAttr cs

/-- The attributes of a start tag. -/
def attrsHTML : List (Str × Str) → Str
  | [] => []
  | (k, v) :: rest => ' ' :: k ++ "=\"".toList ++ escapeAttr v ++ '"' :: attrsHTML rest

/-- Elements that have no content and no end tag. -/
def voidTags : List Str :=
  ["area", "base", "br", "col", "embed", "hr", "img", "input", "link", "meta", "param",
    "source", "track", "wbr"].map String.toList

/-- Elements whose text the browser writes into markup as it is, without
escaping. -/
def rawTextTags : List Str :=
  ["style", "script", "xmp", "iframe", "noembed", "noframes", "plaintext", "noscript"].map
    String.toList

mutual
/-- The markup of a node, as the browser serialises it. -/
def outerHTML : Node → Str
  | .text d => escapeText d
  | .elem tag attrs ks =>
    '<' :: tag ++ attrsHTML attrs ++ '>' ::
      (if tag ∈ voidTags then []
       else (if tag ∈ rawTextTags then serializeRaw ks else serializeAll ks)
         ++ "</".toList ++ tag ++ ['>'])
/-- The markup of the child nodes of an ordinary element. -/
def serializeAll : List Node → Str
  | [] => []
  | n :: ns => outerHTML n ++ serializeAll ns
/-- The markup of the child nodes of an element of `rawTextTags`: the text
nodes are written as they are. -/
def serializeRaw : List Node → Str
  | [] => []
  | .text d :: ns => d ++ serializeRaw ns
  | .elem tag attrs ks :: ns => outerHTML (.elem tag attrs ks) ++ serializeRaw ns
end

/-- The property `innerHTML` of an element: the markup of its child nodes. -/
def innerHTML : Node → Str
  | .text _ => []
  | .elem tag _ ks => if tag ∈ rawTextTags then serializeRaw ks else serializeAll ks

/-- The getter `.html()` of jQuery on a set: the inner markup of the first
element, nothing for an empty set. -/
def html : List Node → Option Str
  | [] => none
  | n :: _ => some (innerHTML n)

/-! ## `img` and `list` (lines 35-93 and 140-143) -/

/-- The function `img(filename, title)`. -/
def img (filename title : Str) : Str :=
  "<img src=\"images/".toList ++ filename ++ "\" alt=\"".toList ++ title
    ++ "\" title=\"".toList ++ title ++ "\" />".toList

/-- The `if` / `else if` chain of `list` (lines 50-81) that picks the icon from
the text `kw` of the declaration. -/
def categoryIcon (kw : Str) : Str :=
  if indexOf kw "struct".toList ≥ 0 then img "struct.png".toList "Struct".toList
  else if indexOf kw "class".toList ≥ 0 then img "class.png".toList "Class".toList
  else if indexOf kw "enum".toList ≥ 0 then img "enum.png".toList "Enum".toList
  else if indexOf kw "template".toList ≥ 0 then img "template.png".toList "Template".toList
  else if indexOf kw "alias".toList ≥ 0 then img "alias.png".toList "Alias".toList
  else if indexOf kw "@property".toList ≥ 0 then img "property.png".toList "Property".toList
  else if indexOf kw "(".toList ≥ 0 then img "func.png".toList "Function".toList
  else img "var.png".toList "Variable".toList

/-- The variable `name` of `list` (lines 42-44): the inner markup of the first
`a` element below the node, and `"this"` when that is `null`. -/
def displayName (n : Node) : Str :=
  match html (find n "a".toList) with
  | none => "this".toList
  | some name => name

/-- The text appended to `str` for an element with class `decl` (line 84). -/
def declEntry (n : Node) : Str :=
  "<li>".toList ++ categoryIcon (textOf n) ++ "<a href=\"#".toList ++ displayName n
    ++ "\">".toList ++ displayName n ++ "</a></li>".toList

/-- The set `$this.children('.decldd dl').children()` of line 88, for an element
`$this` that has class `decldd`: the child elements of its `dl` children. -/
def groupChildren (n : Node) : List Node :=
  ((children n).filter (hasTag "dl".toList)).flatMap children

mutual
/-- The callback of `e.each` in `list` (lines 38-90) for one member of the set:
the text it appends to `str`. The recursive call of line 88 runs over the
children of the `dl` children of the element; `listItem_eq` states it as the
source does, as `list (groupChildren n)`. -/
def listItem : Node → Str
  | .text _ => []
  | .elem tag attrs ks =>
    if hasClass (.elem tag attrs ks) "decl".toList then declEntry (.elem tag attrs ks)
    else if hasClass (.elem tag attrs ks) "decldd".toList then
      "<ul>".toList ++ listGroup ks ++ "</ul>".toList
    else []
/-- The loop `e.each` of `list` over a set: the texts of its members, in order. -/
def listEach : List Node → Str
  | [] => []
  | n :: rest => listItem n ++ listEach rest
/-- The loop of the recursive call, over the children of the `dl` elements
among the child nodes of a group (a text node appends nothing, so running over
all child nodes of a `dl` is running over its child elements). -/
def listGroup : List Node → Str
  | [] => []
  | .text _ :: rest => listGroup rest
  | .elem tag _ ks :: rest =>
    (if tag == "dl".toList then listEach ks else []) ++ listGroup rest
end

/-- The function `list(e)` (lines 35-93). -/
def list (e : List Node) : Str := "<ul>".toList ++ listEach e ++ "</ul>".toList

/-- The text appended between `<li>` and `</li>` for a declaration (line 84):
the icon, then the link to the anchor of the display name. -/
def entryBody (n : Node) : Str :=
  categoryIcon (textOf n) ++ "<a href=\"#".toList ++ displayName n ++ "\">".toList
    ++ displayName n ++ "</a>".toList

/-- An element that `list` treats as a group: it takes the `else if` branch of
line 86, having class `decldd` and not class `decl`. -/
def isGroup (n : Node) : Bool := !hasClass n "decl".toList && hasClass n "decldd".toList

/-! ## The colouring pass (lines 15-25) -/

/-- The array `map` of line 18. -/
def map : List Str := ["class", "template", "struct", "alias"].map String.toList

/-- The string that `indexOf` and `+` make of `map[i]`: the element, and the
text `undefined` for an index outside the array. -/
def toStr : Option Str → Str
  | some s => s
  | none => "undefined".toList

/-- The call `$this.html('<span class="' + cls + '">' + $this.html() + '</span>')`
of line 23: the child nodes of the element are replaced by one `span` of class
`cls` that holds them (the browser reads the markup it has just written back
into the same nodes). -/
def wrapSpan (cls : Str) : Node → Node
  | .text d => .text d
  | .elem tag attrs ks => .elem tag attrs [.elem "span".toList [("class".toList, cls)] ks]

/-- The body of the `for` loop (lines 22-23) at index `i`. -/
def colorizeStep (n : Node) (i : Nat) : Node :=
  if indexOf (textOf n) (toStr map[i]?) ≥ 0 then wrapSpan (toStr map[i]? ++ "decl".toList) n
  else n

/-- The callback of `$('.decl').each` (lines 16-24) on one element: the loop
`for (var i = 0; i <= map.length; i++)`. -/
def colorize (n : Node) : Node := (List.range (map.length + 1)).foldl colorizeStep n

/-! ## The link fix (lines 99-104) -/

/-- The value given to `href` at lines 100-103, from the text `t` of the
`small` element. -/
def moduleHref (t : Str) : Str :=
  replaceDots (substr t 1 ((t.length : Int) - 2)) ++ ".html".toList

/-- Setting an attribute in an attribute list: the value of an attribute that
is there is replaced, a new attribute is added at the end. -/
def setAttrIn (name value : Str) : List (Str × Str) → List (Str × Str)
  | [] => [(name, value)]
  | (k, v) :: rest =>
    if k == name then (k, value) :: rest else (k, v) :: setAttrIn name value rest

/-- The call `.attr(name, value)` on one element. -/
def setAttr (name value : Str) : Node → Node
  | .text d => .text d
  | .elem tag attrs ks => .elem tag (setAttrIn name value attrs) ks

/-- The callback of `$('#modules small').each` (lines 99-104) for the element
`small`, as it changes the parent `parent` of that element: every child `a` of
the parent gets the new `href`. -/
def linkFix (small parent : Node) : Node :=
  match parent with
  | .text d => .text d
  | .elem tag attrs ks =>
    .elem tag attrs
      (ks.map fun k =>
        if hasTag "a".toList k then setAttr "href".toList (moduleHref (textOf small)) k else k)

/-! ## Cookies (lines 145-164) -/

/-- The cookies the page sees, as `document.cookie` lists them: name and value
of each, in listing order. -/
abbrev Jar := List (Str × Str)

/-- A blank for the cookie setter: a space or a tab. -/
def isBlank (c : Char) : Bool := c == ' ' || c == '\t'

/-- A text without the blanks at its two ends. -/
def trimBlanks (s : Str) : Str :=
  ((s.dropWhile isBlank).reverse.dropWhile isBlank).reverse

/-- The text by which `document.cookie` lists one cookie: `name=value`, and
the value alone for a cookie without name. -/
def cookieItem (p : Str × Str) : Str :=
  if p.1 = [] then p.2 else p.1 ++ '=' :: p.2

/-- The getter `document.cookie`: the cookies, joined by `"; "`. -/
def cookieString : Jar → Str
  | [] => []
  | [p] => cookieItem p
  | p :: rest => cookieItem p ++ "; ".toList ++ cookieString rest

/-- Storing a pair in the jar: a cookie of that name keeps its place and gets
the new value, a new cookie is listed last. -/
def store (name value : Str) : Jar → Jar
  | [] => [(name, value)]
  | (n, v) :: rest =>
    if n = name then (n, value) :: rest else (n, v) :: store name value rest

/-- The setter `document.cookie = s` of the browser: the text before the first
`;` is the pair; its name is the text before the first `=` and its value the
text after it, both without the blanks at their ends; a pair without `=` is a
value without name; a pair with neither name nor value is ignored. -/
def setCookie (jar : Jar) (s : Str) : Jar :=
  let pair := s.takeWhile fun c => c != ';'
  let name := if '=' ∈ pair then trimBlanks (pair.takeWhile fun c => c != '=') else []
  let value :=
    if '=' ∈ pair then trimBlanks ((pair.dropWhile fun c => c != '=').drop 1)
    else trimBlanks pair
  if name = [] ∧ value = [] then jar else store name value jar

/-- The function `createCookie(name, value)` called without `days`, as both
calls of the script do: `expires` is the empty string. -/
def createCookie (jar : Jar) (name value : Str) : Jar :=
  let expires : Str := []
  setCookie jar (name ++ '=' :: value ++ expires)

/-- The loop `while (c.charAt(0)==' ') c = c.substring(1,c.length)` of line 160;
`stripBlanks_eq` states it with `substring`. -/
def stripBlanks : Str → Str
  | [] => []
  | c :: cs => if charAt (c :: cs) 0 = [' '] then stripBlanks cs else c :: cs

/-- The `for` loop of `readCookie` (lines 158-162) over the pieces `ca`. -/
def readCookieLoop (nameEQ : Str) : List Str → Option Str
  | [] => none
  | piece :: rest =>
    let c := stripBlanks piece
    if indexOf c nameEQ = 0 then some (substring c nameEQ.length c.length)
    else readCookieLoop nameEQ rest

/-- The function `readCookie(name)`, reading the jar through `document.cookie`. -/
def readCookie (jar : Jar) (name : Str) : Option Str :=
  readCookieLoop (name ++ ['=']) (split ';' (cookieString jar))

/-! ## The panel toggles (lines 8-9 and 110-133) -/

/-- The state of the page that the toggles touch. -/
structure Page where
  /-- The cookies. -/
  jar : Jar
  /-- Whether `#childs` is displayed. -/
  childsShown : Bool
  /-- Whether `#modules` is displayed. -/
  modulesShown : Bool
  /-- The variable `modules`. -/
  modules : Bool
  /-- The variable `jumper`. -/
  jumper : Bool

/-- The `ready` handler as far as the panels go: both are hidden (lines 8-9),
both variables start `false` (line 110). -/
def ready (jar : Jar) : Page :=
  ⟨jar, false, false, false, false⟩

/-- The click handler of `#childsouter h3` (lines 111-114). -/
def clickChilds (s : Page) : Page :=
  { s with childsShown := !s.childsShown, jumper := !s.jumper }

/-- The click handler of `#modulesouter h3` (lines 116-119). -/
def clickModules (s : Page) : Page :=
  { s with modulesShown := !s.modulesShown, modules := !s.modules }

/-- The `load` handler (lines 126-133): a panel whose cookie is `"1"` slides
down. -/
def load (s : Page) : Page :=
  { s with
    modulesShown :=
      if readCookie s.jar "modules".toList = some "1".toList then true else s.modulesShown
    childsShown :=
      if readCookie s.jar "jumper".toList = some "1".toList then true else s.childsShown }

/-- The `unload` handler (lines 121-124). -/
def unload (s : Page) : Page :=
  { s with
    jar :=
      createCookie
        (createCookie s.jar "modules".toList (if s.modules then "1".toList else "0".toList))
        "jumper".toList (if s.jumper then "1".toList else "0".toList) }

/-- A click on one of the two toggle headers. -/
inductive Click where
  | childs
  | modules

/-- The handler of a click. -/
def click (s : Page) : Click → Page
  | .childs => clickChilds s
  | .modules => clickModules s

/-- A visit of the page: `ready`, clicks made before the window has loaded,
`load`, the clicks made afterwards. -/
def visit (jar : Jar) (early late : List Click) : Page :=
  late.foldl click (load (early.foldl click (ready jar)))

/-! ## Notions of the specification -/

/-- The categories of the specification in priority order, as the chain of
`list` tests them: keyword, icon file, title. -/
def categories : List (Str × Str × Str) :=
  [("struct".toList, "struct.png".toList, "Struct".toList),
   ("class".toList, "class.png".toList, "Class".toList),
   ("enum".toList, "enum.png".toList, "Enum".toList),
   ("template".toList, "template.png".toList, "Template".toList),
   ("alias".toList, "alias.png".toList, "Alias".toList),
   ("@property".toList, "property.png".toList, "Property".toList),
   ("(".toList, "func.png".toList, "Function".toList)]

/-- The first category whose keyword occurs in the text. -/
def firstCategory (kw : Str) : Option (Str × Str × Str) :=
  categories.find? fun c => decide (c.1 <:+: kw)

/-- The navigation list as a tree: an entry, or a list container with its
items. -/
inductive Markup where
  | li (body : Str)
  | ul (items : List Markup)

mutual
/-- The text of a piece of navigation markup. -/
def Markup.render : Markup → Str
  | .li body => "<li>".toList ++ body ++ "</li>".toList
  | .ul items => "<ul>".toList ++ Markup.renderAll items ++ "</ul>".toList
/-- The text of a sequence of pieces. -/
def Markup.renderAll : List Markup → Str
  | [] => []
  | m :: ms => Markup.render m ++ Markup.renderAll ms
end

mutual
/-- The entries of a piece of markup in order, each with the number of list
containers it is in; `d` containers are around the piece itself. -/
def Markup.entries (d : Nat) : Markup → List (Nat × Str)
  | .li body => [(d, body)]
  | .ul items => Markup.entriesAll (d + 1) items
/-- The entries of a sequence of pieces. -/
def Markup.entriesAll (d : Nat) : List Markup → List (Nat × Str)
  | [] => []
  | m :: ms => Markup.entries d m ++ Markup.entriesAll d ms
end

mutual
/-- The navigation markup of the specification for one node: an entry for a
declaration, a nested container with the markup of the nested declarations
for a group, nothing for anything else. -/
def navItem : Node → List Markup
  | .text _ => []
  | .elem tag attrs ks =>
    if hasClass (.elem tag attrs ks) "decl".toList then [.li (entryBody (.elem tag attrs ks))]
    else if hasClass (.elem tag attrs ks) "decldd".toList then [.ul (navGroup ks)]
    else []
/-- The navigation markup for a sequence of nodes. -/
def navItems : List Node → List Markup
  | [] => []
  | n :: rest => navItem n ++ navItems rest
/-- The navigation markup for the declarations nested in a group with child
nodes `ks`: those listed in its `dl` children. -/
def navGroup : List Node → List Markup
  | [] => []
  | .text _ :: rest => navGroup rest
  | .elem tag _ ks :: rest =>
    (if tag == "dl".toList then navItems ks else []) ++ navGroup rest
end

mutual
/-- The declaration elements at or below a node, in document order, each with
the number of groups that enclose it; `g` groups enclose the node itself. -/
def declNodes (g : Nat) : Node → List (Nat × Node)
  | .text _ => []
  | .elem tag attrs ks =>
    (if hasClass (.elem tag attrs ks) "decl".toList then [(g, .elem tag attrs ks)] else [])
      ++ declNodesAll (if isGroup (.elem tag attrs ks) then g + 1 else g) ks
/-- The declaration elements at or below the nodes of a sequence. -/
def declNodesAll (g : Nat) : List Node → List (Nat × Node)
  | [] => []
  | n :: ns => declNodes g n ++ declNodesAll g ns
end

mutual
/-- No declaration element at or below the node. -/
def plain : Node → Bool
  | .text _ => true
  | .elem tag attrs ks => !hasClass (.elem tag attrs ks) "decl".toList && plainAll ks
/-- No declaration element at or below the nodes of a sequence. -/
def plainAll : List Node → Bool
  | [] => true
  | n :: ns => plain n && plainAll ns
end

mutual
/-- A member of a declaration tree: a declaration (an element of class `decl`
with no declaration inside), a group (an element of class `decldd` whose
nested declarations are the children of its `dl` children), or a node that
holds no declaration. -/
def declTree : Node → Bool
  | .text _ => true
  | .elem tag attrs ks =>
    if hasClass (.elem tag attrs ks) "decl".toList then plainAll ks
    else if hasClass (.elem tag attrs ks) "decldd".toList then declGroup ks
    else plainAll ks
/-- A declaration tree: a sequence of members. -/
def declForest : List Node → Bool
  | [] => true
  | n :: ns => declTree n && declForest ns
/-- The child nodes of a group: `dl` elements, themselves neither declaration
nor group, that hold a declaration tree, and nodes without declaration. -/
def declGroup : List Node → Bool
  | [] => true
  | .text _ :: rest => declGroup rest
  | .elem tag attrs ks :: rest =>
    (if tag == "dl".toList then
        !hasClass (.elem tag attrs ks) "decl".toList
          && !hasClass (.elem tag attrs ks) "decldd".toList && declForest ks
      else plain (.elem tag attrs ks))
      && declGroup rest
end

/-- A name as a cookie jar lists it: free of `;` and `=`, not starting with a
space. -/
def nameOK (s : Str) : Prop := ';' ∉ s ∧ '=' ∉ s ∧ s.head? ≠ some ' '

/-- A state of the cookie jar that `readCookie` can read pair by pair: every
cookie has a name free of `;` and `=` that does not start with a space and a
value free of `;`, and a cookie without name has a value free of `=`. -/
def jarOK (jar : Jar) : Prop :=
  ∀ p ∈ jar, nameOK p.1 ∧ ';' ∉ p.2 ∧ (p.1 = [] → '=' ∉ p.2)

instance (s : Str) : Decidable (nameOK s) :=
  inferInstanceAs (Decidable (';' ∉ s ∧ '=' ∉ s ∧ s.head? ≠ some ' '))

instance (jar : Jar) : Decidable (jarOK jar) :=
  inferInstanceAs (Decidable (∀ p ∈ jar, nameOK p.1 ∧ ';' ∉ p.2 ∧ (p.1 = [] → '=' ∉ p.2)))

/-- Whether a unit, if there is one, is a blank. -/
def blankAt : Option Char → Bool
  | none => false
  | some c => isBlank c

/-- A text that neither starts nor ends with a space or a tab. -/
def noBlankEnds (s : Str) : Prop := blankAt s.head? = false ∧ blankAt s.getLast? = false

instance (s : Str) : Decidable (noBlankEnds s) :=
  inferInstanceAs (Decidable (blankAt s.head? = false ∧ blankAt s.getLast? = false))

/-- The value of the first pair of that name in a jar. -/
def lookup (name : Str) (jar : Jar) : Option Str :=
  (jar.find? fun p => decide (p.1 = name)).map Prod.snd

/-- The spans the colouring pass puts around the content of `n` for the
keywords `kws`, the first keyword innermost. -/
def wrapAll (kws : List Str) (n : Node) : Node :=
  kws.foldl (fun acc kw => wrapSpan (kw ++ "decl".toList) acc) n

/-! ## Sample documents -/

/-- A declaration whose text holds both `struct` and `class`, with a named
link. -/
def sampleStruct : Node :=
  .elem "dt".toList [("class".toList, "decl".toList)]
    [.text "struct ".toList, .elem "a".toList [("name".toList, "Foo".toList)] [.text "Foo".toList],
     .text " : class Bar".toList]

/-- A declaration without link. -/
def sampleVar : Node :=
  .elem "dt".toList [("class".toList, "decl".toList)] [.text "int x".toList]

/-- A declaration whose link has no content. -/
def sampleEmptyLink : Node :=
  .elem "dt".toList [("class".toList, "decl".toList)]
    [.text "int y".toList, .elem "a".toList [("name".toList, "y".toList)] []]

/-- A declaration tree with two levels of groups. -/
def sampleTree : List Node :=
  [sampleStruct,
   .elem "dd".toList [("class".toList, "decldd".toList)]
     [.text "A structure.".toList,
      .elem "dl".toList []
        [sampleVar,
         .elem "dd".toList [("class".toList, "decldd".toList)]
           [.elem "dl".toList [] [sampleEmptyLink]]]],
   sampleVar]

/-- A module list item: the link and the module name in brackets. -/
def sampleModule : Node :=
  .elem "li".toList []
    [.elem "a".toList [("href".toList, "#".toList)] [.text "linalg".toList],
     .elem "small".toList [] [.text "(gl3n.linalg)".toList]]

/-- A jar with two cookies of other pages of the site. -/
def sampleJar : Jar := [("lang".toList, "en".toList), ("jumper".toList, "0".toList)]

/-- A declaration whose text holds none of the four keywords, but the text
`undefined`. -/
def sampleUndefined : Node :=
  .elem "dt".toList [("class".toList, "decl".toList)] [.text "int undefined;".toList]

/-! ## Facts about the string primitives -/

theorem indexOfFrom_ge (pat s : Str) (k : Nat) :
    indexOfFrom pat s k = -1 ∨ (k : Int) ≤ indexOfFrom pat s k := by
  induction s generalizing k with
  | nil =>
    unfold indexOfFrom
    split
    · exact Or.inr (le_refl _)
    · exact Or.inl rfl
  | cons c cs ih =>
    unfold indexOfFrom
    split
    · exact Or.inr (le_refl _)
    · rcases ih (k + 1) with h | h
      · exact Or.inl h
      · refine Or.inr ?_
        have : (k : Int) ≤ ((k + 1 : Nat) : Int) := by omega
        exact le_trans this h

theorem indexOfFrom_nonneg_iff (pat s : Str) (k : Nat) :
    0 ≤ indexOfFrom pat s k ↔ pat <:+: s := by
  induction s generalizing k with
  | nil =>
    unfold indexOfFrom
    split
    · rename_i h
      subst h
      simp
    · rename_i h
      simp [h]
  | cons c cs ih =>
    unfold indexOfFrom
    rw [List.infix_cons_iff]
    split
    · rename_i h
      simp [h]
    · rename_i h
      rw [ih (k + 1)]
      simp [h]

/-- The test `s.indexOf(pat) >= 0` of the source is the test that `pat` occurs
in `s` as a contiguous substring. -/
theorem indexOf_nonneg_iff (s pat : Str) : indexOf s pat ≥ 0 ↔ pat <:+: s :=
  indexOfFrom_nonneg_iff pat s 0

/-- The test `s.indexOf(pat) == 0` of the source is the test that `s` starts
with `pat`. -/
theorem indexOf_eq_zero_iff (s pat : Str) : indexOf s pat = 0 ↔ pat <+: s := by
  unfold indexOf
  cases s with
  | nil =>
    unfold indexOfFrom
    split
    · rename_i h
      subst h
      simp
    · rename_i h
      simp [h]
  | cons c cs =>
    unfold indexOfFrom
    split
    · rename_i h
      simp [h]
    · rename_i h
      constructor
      · intro h0
        rcases indexOfFrom_ge pat cs (0 + 1) with h1 | h1
        · rw [h1] at h0
          omega
        · rw [h0] at h1
          omega
      · intro h0
        exact absurd h0 h

/-! ## Facts about `list` -/

theorem hasClass_isElem (n : Node) (c : Str) (h : hasClass n c = true) : n.isElem = true := by
  unfold hasClass at h
  simp only [Bool.and_eq_true] at h
  exact h.1

theorem listItem_decl (n : Node) (h : hasClass n "decl".toList = true) :
    listItem n = declEntry n := by
  cases n with
  | text d => simp [hasClass, Node.isElem] at h
  | elem tag attrs ks => rw [listItem, if_pos h]

theorem listEach_append (a b : List Node) : listEach (a ++ b) = listEach a ++ listEach b := by
  induction a with
  | nil => simp [listEach]
  | cons x xs ih => simp [listEach, ih]

theorem listEach_decls (e : List Node) (h : ∀ n ∈ e, hasClass n "decl".toList = true) :
    listEach e = (e.map declEntry).flatten := by
  induction e with
  | nil => simp [listEach]
  | cons x xs ih =>
    have hx : hasClass x "decl".toList = true := h x (List.mem_cons_self _ _)
    have hxs : ∀ n ∈ xs, hasClass n "decl".toList = true :=
      fun n hn => h n (List.mem_cons_of_mem _ hn)
    simp [listEach, listItem_decl x hx, ih hxs]

theorem declEntry_eq (n : Node) :
    declEntry n = "<li>".toList ++ entryBody n ++ "</li>".toList := by
  simp [declEntry, entryBody, List.append_assoc]

theorem icon_struct_ne_class :
    img "struct.png".toList "Struct".toList ≠ img "class.png".toList "Class".toList := by
  decide

/-- Claim C2. For a flat sequence `e` of `N` elements that all have class `decl`,
`list(e)` is `<ul>`, then exactly `N` entries, then `</ul>`; the i-th entry is
`<li>`, the icon of the i-th node, a link with href `#` + display name and the
display name as label, `</li>`. For the empty sequence the result is the empty
container `<ul></ul>`. -/
theorem list_flat (e : List Node) (h : ∀ n ∈ e, hasClass n "decl".toList = true) :
    list e = "<ul>".toList ++ (e.map declEntry).flatten ++ "</ul>".toList
      ∧ (e.map declEntry).length = e.length
      ∧ (∀ n, declEntry n = "<li>".toList ++ categoryIcon (textOf n) ++ "<a href=\"#".toList
          ++ displayName n ++ "\">".toList ++ displayName n ++ "</a></li>".toList)
      ∧ list [] = "<ul></ul>".toList := by
  refine ⟨?_, by simp, fun n => rfl, by decide⟩
  simp [list, listEach_decls e h]

/-- Claim C10. For a declaration node whose text contains both `struct` and
`class`, `list` emits the struct icon (`images/struct.png`, alt and title
`Struct`) and not the class icon. -/
theorem list_struct_before_class (n : Node) (hd : hasClass n "decl".toList = true)
    (hs : "struct".toList <:+: textOf n) (_hc : "class".toList <:+: textOf n) :
    list [n] = "<ul><li><img src=\"images/struct.png\" alt=\"Struct\" title=\"Struct\" />".toList
        ++ "<a href=\"#".toList ++ displayName n ++ "\">".toList ++ displayName n
        ++ "</a></li></ul>".toList
      ∧ categoryIcon (textOf n) = img "struct.png".toList "Struct".toList
      ∧ categoryIcon (textOf n) ≠ img "class.png".toList "Class".toList := by
  have hicon : categoryIcon (textOf n) = img "struct.png".toList "Struct".toList := by
    unfold categoryIcon
    rw [if_pos ((indexOf_nonneg_iff _ _).2 hs)]
  refine ⟨?_, hicon, ?_⟩
  · simp only [list, listEach, listItem_decl n hd, declEntry, hicon]
    simp [img, List.append_assoc]
  · rw [hicon]
    exact icon_struct_ne_class

theorem categoryIcon_table (kw : Str) :
    categoryIcon kw =
      match firstCategory kw with
      | some c => img c.2.1 c.2.2
      | none => img "var.png".toList "Variable".toList := by
  unfold categoryIcon firstCategory categories
  simp only [indexOf_nonneg_iff, List.find?_cons, List.find?_nil]
  by_cases h1 : "struct".toList <:+: kw
  · simp only [h1, if_true, decide_True]
  by_cases h2 : "class".toList <:+: kw
  · simp only [h1, h2, if_true, if_false, decide_True, decide_False]
  by_cases h3 : "enum".toList <:+: kw
  · simp only [h1, h2, h3, if_true, if_false, decide_True, decide_False]
  by_cases h4 : "template".toList <:+: kw
  · simp only [h1, h2, h3, h4, if_true, if_false, decide_True, decide_False]
  by_cases h5 : "alias".toList <:+: kw
  · simp only [h1, h2, h3, h4, h5, if_true, if_false, decide_True, decide_False]
  by_cases h6 : "@property".toList <:+: kw
  · simp only [h1, h2, h3, h4, h5, h6, if_true, if_false, decide_True, decide_False]
  by_cases h7 : "(".toList <:+: kw
  · simp only [h1, h2, h3, h4, h5, h6, h7, if_true, if_false, decide_True, decide_False]
  · simp only [h1, h2, h3, h4, h5, h6, h7, if_false, decide_False]

theorem icons_ne_var :
    ∀ c ∈ categories, img c.2.1 c.2.2 ≠ img "var.png".toList "Variable".toList := by
  decide

/-- Claim C3, amended. The icon that `list` picks for a text is the icon of the
first category, in the order struct, class, enum, template, alias, property,
function, whose keyword occurs in the text, the keywords being `struct`,
`class`, `enum`, `template`, `alias`, `@property` and `(`; it is the variable
icon exactly when none of them occurs. A text with `(` and none of the six
keywords gets the function icon; a text with `@property` and none of the five
earlier keywords gets the property icon, whether or not `(` occurs. -/
theorem categoryIcon_first_match (kw : Str) :
    (categoryIcon kw =
        match firstCategory kw with
        | some c => img c.2.1 c.2.2
        | none => img "var.png".toList "Variable".toList)
      ∧ (categoryIcon kw = img "var.png".toList "Variable".toList
          ↔ ∀ c ∈ categories, ¬ c.1 <:+: kw)
      ∧ ("(".toList <:+: kw →
          (∀ k ∈ ["struct", "class", "enum", "template", "alias", "@property"],
            ¬ k.toList <:+: kw) →
          categoryIcon kw = img "func.png".toList "Function".toList)
      ∧ ("@property".toList <:+: kw →
          (∀ k ∈ ["struct", "class", "enum", "template", "alias"], ¬ k.toList <:+: kw) →
          categoryIcon kw = img "property.png".toList "Property".toList) := by
  refine ⟨categoryIcon_table kw, ?_, ?_, ?_⟩
  · rw [categoryIcon_table]
    cases hf : firstCategory kw with
    | none =>
      simp only [true_iff]
      intro c hc
      have := List.find?_eq_none.1 hf c hc
      simpa using this
    | some c =>
      have hmem : c ∈ categories := List.mem_of_find?_eq_some hf
      have hocc : c.1 <:+: kw := by simpa using List.find?_some hf
      constructor
      · intro h
        exact absurd h (icons_ne_var c hmem)
      · intro h
        exact absurd hocc (h c hmem)
  · intro h7 hno
    have h1 := hno "struct" (by simp)
    have h2 := hno "class" (by simp)
    have h3 := hno "enum" (by simp)
    have h4 := hno "template" (by simp)
    have h5 := hno "alias" (by simp)
    have h6 := hno "@property" (by simp)
    unfold categoryIcon
    simp only [indexOf_nonneg_iff, h1, h2, h3, h4, h5, h6, h7, if_true, if_false]
  · intro h6 hno
    have h1 := hno "struct" (by simp)
    have h2 := hno "class" (by simp)
    have h3 := hno "enum" (by simp)
    have h4 := hno "template" (by simp)
    have h5 := hno "alias" (by simp)
    unfold categoryIcon
    simp only [indexOf_nonneg_iff, h1, h2, h3, h4, h5, h6, if_true, if_false]

/-- Claim C3 as stated fails. The text `property x` contains the keyword
`property` and none of the five earlier keywords, yet `list` gives it the
variable icon, not the property icon; the text `property(` gets the function
icon. -/
theorem categoryIcon_property_counterexample :
    "property".toList <:+: "property x".toList
      ∧ (∀ k ∈ ["struct", "class", "enum", "template", "alias"],
          ¬ k.toList <:+: "property x".toList)
      ∧ categoryIcon "property x".toList = img "var.png".toList "Variable".toList
      ∧ categoryIcon "property x".toList ≠ img "property.png".toList "Property".toList
      ∧ categoryIcon "property(".toList = img "func.png".toList "Function".toList := by
  decide

/-- Witness of Claim C3, amended: the text `void f()` holds `(` and none of the
six keywords, and gets the function icon. -/
theorem categoryIcon_first_match_witness :
    "(".toList <:+: "void f()".toList
      ∧ categoryIcon "void f()".toList = img "func.png".toList "Function".toList :=
  ⟨by decide, (categoryIcon_first_match "void f()".toList).2.2.1 (by decide) (by decide)⟩

/-- Witness of Claim C2: two declarations, two entries in the same order. -/
theorem list_flat_witness :
    (∀ n ∈ [sampleStruct, sampleVar], hasClass n "decl".toList = true)
      ∧ list [sampleStruct, sampleVar]
        = ("<ul><li><img src=\"images/struct.png\" alt=\"Struct\" title=\"Struct\" />"
            ++ "<a href=\"#Foo\">Foo</a></li>"
            ++ "<li><img src=\"images/var.png\" alt=\"Variable\" title=\"Variable\" />"
            ++ "<a href=\"#this\">this</a></li></ul>").toList :=
  ⟨by decide, (list_flat [sampleStruct, sampleVar] (by decide)).1.trans (by decide)⟩

/-- Witness of Claim C10: `sampleStruct` holds both keywords and gets the
struct icon. -/
theorem list_struct_before_class_witness :
    hasClass sampleStruct "decl".toList = true
      ∧ "struct".toList <:+: textOf sampleStruct
      ∧ "class".toList <:+: textOf sampleStruct
      ∧ categoryIcon (textOf sampleStruct) = img "struct.png".toList "Struct".toList :=
  ⟨by decide, by decide, by decide,
    (list_struct_before_class sampleStruct (by decide) (by decide) (by decide)).2.1⟩

/-- Claim C4, amended. For a declaration node with no `a` element below it,
`list` takes `this` as the display name and emits the link `href="#this"` with
label `this`. A declaration node whose first `a` element has no content gets
the empty display name: the link `href="#"` with an empty label. -/
theorem list_name_fallback (n : Node) (hd : hasClass n "decl".toList = true)
    (ha : find n "a".toList = []) :
    (displayName n = "this".toList
        ∧ list [n] = "<ul><li>".toList ++ categoryIcon (textOf n)
            ++ "<a href=\"#this\">this</a></li></ul>".toList)
      ∧ ∀ m a rest, hasClass m "decl".toList = true → find m "a".toList = a :: rest →
          a.kids = [] →
          displayName m = []
            ∧ list [m] = "<ul><li>".toList ++ categoryIcon (textOf m)
                ++ "<a href=\"#\"></a></li></ul>".toList := by
  have hn : displayName n = "this".toList := by
    unfold displayName
    rw [ha]
    rfl
  refine ⟨⟨hn, ?_⟩, ?_⟩
  · simp only [list, listEach, listItem_decl n hd, declEntry, hn]
    simp [List.append_assoc]
  · intro m a rest hm hf hk
    have hm0 : displayName m = [] := by
      unfold displayName
      rw [hf]
      have hi : innerHTML a = [] := by
        cases a with
        | text d => rfl
        | elem t at0 kk =>
          simp only [Node.kids] at hk
          subst hk
          show (if t ∈ rawTextTags then serializeRaw [] else serializeAll []) = []
          split <;> rfl
      simp [html, hi]
    refine ⟨hm0, ?_⟩
    simp only [list, listEach, listItem_decl m hm, declEntry, hm0]
    simp [List.append_assoc]

/-- Witness of Claim C4, amended: `sampleVar` has no `a` element and is named
`this`. -/
theorem list_name_fallback_witness :
    hasClass sampleVar "decl".toList = true ∧ find sampleVar "a".toList = []
      ∧ displayName sampleVar = "this".toList :=
  ⟨by decide, rfl, (list_name_fallback sampleVar (by decide) rfl).1.1⟩

/-- Claim C4 as stated fails. The declaration `sampleEmptyLink` has an `a`
element with empty content, so no inner link text; its display name is the
empty string and its entry links to `#` with an empty label, not to `#this`. -/
theorem list_empty_link_counterexample :
    hasClass sampleEmptyLink "decl".toList = true
      ∧ (find sampleEmptyLink "a".toList).map Node.kids = [[]]
      ∧ displayName sampleEmptyLink = []
      ∧ displayName sampleEmptyLink ≠ "this".toList
      ∧ list [sampleEmptyLink]
        = ("<ul><li><img src=\"images/var.png\" alt=\"Variable\" title=\"Variable\" />"
            ++ "<a href=\"#\"></a></li></ul>").toList := by
  refine ⟨by decide, rfl, by decide, by decide, by decide⟩

/-! ## Groups and nesting -/

theorem listItem_text_free (n : Node) (h : n.isElem = false) : listItem n = [] := by
  cases n with
  | text d => rfl
  | elem tag attrs ks => simp [Node.isElem] at h

theorem listEach_filter_isElem (e : List Node) : listEach (e.filter isElem) = listEach e := by
  induction e with
  | nil => rfl
  | cons x xs ih =>
    cases hx : x.isElem with
    | true => simp [List.filter_cons, hx, listEach, ih]
    | false => simp [List.filter_cons, hx, listEach, ih, listItem_text_free x hx]

theorem listGroup_eq (tag : Str) (attrs : List (Str × Str)) (ks : List Node) :
    listGroup ks = listEach (groupChildren (.elem tag attrs ks)) := by
  unfold groupChildren children
  simp only [Node.kids]
  induction ks with
  | nil => rfl
  | cons k rest ih =>
    cases k with
    | text d => simpa [listGroup, List.filter_cons, Node.isElem] using ih
    | elem t a kk =>
      by_cases ht : (t == "dl".toList) = true
      · simp only [listGroup, ht, if_true, List.filter_cons, Node.isElem, Node.hasTag,
          List.flatMap_cons, listEach_append, children, Node.kids, listEach_filter_isElem, ih]
      · simp only [listGroup, ht, if_false, List.filter_cons, Node.isElem, Node.hasTag,
          if_true, List.nil_append, ih]
        rfl

/-- The recursive call of line 88: for a group, the callback appends
`list($this.children('.decldd dl').children())`. -/
theorem listItem_group (n : Node) (hd : hasClass n "decl".toList = false)
    (hg : hasClass n "decldd".toList = true) : listItem n = list (groupChildren n) := by
  cases n with
  | text d => simp [hasClass, Node.isElem] at hg
  | elem tag attrs ks =>
    rw [listItem, if_neg (by rw [hd]; decide), if_pos hg, list, listGroup_eq tag attrs ks]

/-- The callback of `e.each` as the source writes it (lines 41-89). -/
theorem listItem_eq (n : Node) :
    listItem n =
      if hasClass n "decl".toList = true then declEntry n
      else if hasClass n "decldd".toList = true then list (groupChildren n)
      else [] := by
  by_cases hd : hasClass n "decl".toList = true
  · rw [if_pos hd, listItem_decl n hd]
  · rw [if_neg hd]
    by_cases hg : hasClass n "decldd".toList = true
    · rw [if_pos hg, listItem_group n (by simpa using hd) hg]
    · rw [if_neg hg]
      cases n with
      | text d => rfl
      | elem tag attrs ks => rw [listItem, if_neg hd, if_neg hg]

theorem renderAll_append (a b : List Markup) :
    Markup.renderAll (a ++ b) = Markup.renderAll a ++ Markup.renderAll b := by
  induction a with
  | nil => simp [Markup.renderAll]
  | cons x xs ih => simp [Markup.renderAll, ih]

theorem entriesAll_append (d : Nat) (a b : List Markup) :
    Markup.entriesAll d (a ++ b) = Markup.entriesAll d a ++ Markup.entriesAll d b := by
  induction a with
  | nil => simp [Markup.entriesAll]
  | cons x xs ih => simp [Markup.entriesAll, ih]

mutual
theorem render_navItem : ∀ n : Node, Markup.renderAll (navItem n) = listItem n
  | .text _ => rfl
  | .elem tag attrs ks => by
    unfold navItem listItem
    split
    · simp [Markup.renderAll, Markup.render, declEntry_eq]
    · split
      · simp [Markup.renderAll, Markup.render, render_navGroup ks]
      · rfl
theorem render_navItems : ∀ e : List Node, Markup.renderAll (navItems e) = listEach e
  | [] => rfl
  | n :: rest => by
    rw [navItems, listEach, renderAll_append, render_navItem n, render_navItems rest]
theorem render_navGroup : ∀ ks : List Node, Markup.renderAll (navGroup ks) = listGroup ks
  | [] => rfl
  | .text _ :: rest => by
    rw [navGroup, listGroup, render_navGroup rest]
  | .elem tag _ ks :: rest => by
    rw [navGroup, listGroup, renderAll_append, render_navGroup rest]
    split
    · rw [render_navItems ks]
    · rfl
end

mutual
theorem declNodes_plain : ∀ (n : Node) (g : Nat), plain n = true → declNodes g n = []
  | .text _, _, _ => rfl
  | .elem tag attrs ks, g, h => by
    rw [plain, Bool.and_eq_true] at h
    have h1 : hasClass (.elem tag attrs ks) "decl".toList = false := by simpa using h.1
    rw [declNodes, h1, declNodesAll_plain ks _ h.2]
    rfl
theorem declNodesAll_plain : ∀ (ns : List Node) (g : Nat), plainAll ns = true →
    declNodesAll g ns = []
  | [], _, _ => rfl
  | n :: rest, g, h => by
    rw [plainAll, Bool.and_eq_true] at h
    rw [declNodesAll, declNodes_plain n g h.1, declNodesAll_plain rest g h.2]
    rfl
end

theorem hasClass_false_of_not {n : Node} {c : Str} (h : ¬ hasClass n c = true) :
    hasClass n c = false := by
  simpa using h

mutual
theorem entries_navItem : ∀ (n : Node) (g : Nat), declTree n = true →
    Markup.entriesAll (g + 1) (navItem n)
      = (declNodes g n).map fun p => (p.1 + 1, entryBody p.2)
  | .text _, _, _ => rfl
  | .elem tag attrs ks, g, h => by
    unfold declTree at h
    unfold navItem declNodes isGroup
    by_cases hd : hasClass (.elem tag attrs ks) "decl".toList = true
    · rw [if_pos hd] at h
      rw [if_pos hd, if_pos hd, declNodesAll_plain ks _ h]
      rfl
    · rw [if_neg hd] at h
      rw [if_neg hd, if_neg hd, hasClass_false_of_not hd]
      by_cases hg : hasClass (.elem tag attrs ks) "decldd".toList = true
      · rw [if_pos hg] at h
        rw [if_pos hg, hg]
        simp only [Bool.not_false, Bool.and_self, if_true, List.nil_append]
        rw [← entries_navGroup ks (g + 1) h]
        simp [Markup.entriesAll, Markup.entries]
      · rw [if_neg hg] at h
        rw [if_neg hg, declNodesAll_plain ks _ h]
        rfl
theorem entries_navItems : ∀ (e : List Node) (g : Nat), declForest e = true →
    Markup.entriesAll (g + 1) (navItems e)
      = (declNodesAll g e).map fun p => (p.1 + 1, entryBody p.2)
  | [], _, _ => rfl
  | n :: rest, g, h => by
    rw [declForest, Bool.and_eq_true] at h
    rw [navItems, declNodesAll, entriesAll_append, List.map_append,
      entries_navItem n g h.1, entries_navItems rest g h.2]
theorem entries_navGroup : ∀ (ks : List Node) (g : Nat), declGroup ks = true →
    Markup.entriesAll (g + 1) (navGroup ks)
      = (declNodesAll g ks).map fun p => (p.1 + 1, entryBody p.2)
  | [], _, _ => rfl
  | .text _ :: rest, g, h => by
    rw [declGroup] at h
    rw [navGroup, declNodesAll, entries_navGroup rest g h]
    rfl
  | .elem tag attrs kk :: rest, g, h => by
    rw [declGroup, Bool.and_eq_true] at h
    rw [navGroup, declNodesAll, entriesAll_append, List.map_append,
      entries_navGroup rest g h.2]
    congr 1
    by_cases ht : (tag == "dl".toList) = true
    · have h1 := h.1
      rw [if_pos ht] at h1
      simp only [Bool.and_eq_true, Bool.not_eq_true'] at h1
      rw [if_pos ht, entries_navItems kk g h1.2, declNodes, isGroup, h1.1.1, h1.1.2]
      rfl
    · have h1 := h.1
      rw [if_neg ht] at h1
      rw [if_neg ht, declNodes_plain _ g h1]
      rfl
end

/-- Claim C1. A group element (class `decldd`, not class `decl`) of the input of
`list` contributes no entry of its own: at its position `list` appends the
result of `list` on the children of the `dl` children of the group, a nested
`<ul>...</ul>`. So the output is the rendering of the navigation tree of the
input, and for every declaration tree the entries of the output are the
declaration nodes in document order, each inside one list container more than
the number of groups that enclose the node. -/
theorem list_groups_nest (e : List Node) :
    (∀ pre g post, e = pre ++ g :: post → isGroup g = true →
        list e = "<ul>".toList ++ (listEach pre ++ list (groupChildren g) ++ listEach post)
          ++ "</ul>".toList)
      ∧ list e = (Markup.ul (navItems e)).render
      ∧ (declForest e = true →
          (Markup.ul (navItems e)).entries 0
            = (declNodesAll 0 e).map fun p => (p.1 + 1, entryBody p.2)) := by
  refine ⟨?_, ?_, ?_⟩
  · intro pre g post he hg
    unfold isGroup at hg
    simp only [Bool.and_eq_true, Bool.not_eq_true'] at hg
    rw [he, list, listEach_append, listEach, listItem_group g hg.1 hg.2]
    simp [List.append_assoc]
  · rw [list, Markup.render, render_navItems]
  · intro h
    rw [Markup.entries]
    exact entries_navItems e 0 h

/-- Witness of Claim C1: `sampleTree` is a declaration tree; its four
declarations are listed in document order at depths 1, 2, 3 and 1. -/
theorem list_groups_nest_witness :
    declForest sampleTree = true
      ∧ list sampleTree
        = ("<ul><li><img src=\"images/struct.png\" alt=\"Struct\" title=\"Struct\" />"
            ++ "<a href=\"#Foo\">Foo</a></li>"
            ++ "<ul><li><img src=\"images/var.png\" alt=\"Variable\" title=\"Variable\" />"
            ++ "<a href=\"#this\">this</a></li>"
            ++ "<ul><li><img src=\"images/var.png\" alt=\"Variable\" title=\"Variable\" />"
            ++ "<a href=\"#\"></a></li></ul></ul>"
            ++ "<li><img src=\"images/var.png\" alt=\"Variable\" title=\"Variable\" />"
            ++ "<a href=\"#this\">this</a></li></ul>").toList
      ∧ (Markup.ul (navItems sampleTree)).entries 0
        = [(1, entryBody sampleStruct), (2, entryBody sampleVar),
           (3, entryBody sampleEmptyLink), (1, entryBody sampleVar)] :=
  ⟨by decide, by decide, ((list_groups_nest sampleTree).2.2 (by decide)).trans (by decide)⟩

/-! ## The link fix -/

theorem substr_one (t : Str) : substr t 1 ((t.length : Int) - 2) = (t.drop 1).dropLast := by
  match t with
  | [] => decide
  | [a] => simp [substr]
  | a :: b :: rest =>
    unfold substr
    have h1 : ¬ ((1 : Int) < 0) := by omega
    have h2 : min (1 : Int) (((a :: b :: rest).length : Nat) : Int) = 1 := by
      simp only [List.length_cons]
      omega
    have h3 : min (max ((((a :: b :: rest).length : Nat) : Int) - 2) 0)
        ((((a :: b :: rest).length : Nat) : Int) - 1) = (rest.length : Int) := by
      simp only [List.length_cons]
      omega
    simp only [h1, if_false, h2, h3]
    split
    · rename_i h
      have : rest.length = 0 := by omega
      have hr : rest = [] := List.length_eq_zero.1 this
      subst hr
      rfl
    · rw [List.dropLast_eq_take]
      simp

theorem replaceDots_no_dot (s : Str) : '.' ∉ replaceDots s := by
  unfold replaceDots
  intro h
  rcases List.mem_map.1 h with ⟨c, _, hc⟩
  by_cases hd : c = '.'
  · rw [if_pos hd] at hc
    exact absurd hc (by decide)
  · rw [if_neg hd] at hc
    exact hd hc

theorem attr_setAttrIn (name value : Str) (attrs : List (Str × Str)) :
    ((setAttrIn name value attrs).find? fun p => p.1 == name).map Prod.snd = some value := by
  induction attrs with
  | nil => simp [setAttrIn]
  | cons p rest ih =>
    obtain ⟨k, v⟩ := p
    unfold setAttrIn
    by_cases hk : (k == name) = true
    · rw [if_pos hk]
      simp [List.find?_cons, hk]
    · rw [if_neg hk]
      simp only [List.find?_cons]
      simp only [Bool.not_eq_true] at hk
      rw [hk]
      exact ih

/-- Claim C9. The `href` that the link fix gives the sibling links of a `small`
element with text `t` is `s + ".html"`, where `s` is `t` without its first and
its last unit and with every `.` replaced by `_`; `(gl3n.linalg)` gives
`gl3n_linalg.html`; the only `.` of the result is the one of the final `.html`;
for a text shorter than two units the result is `.html`. -/
theorem moduleHref_spec (t : Str) :
    moduleHref t = replaceDots (t.drop 1).dropLast ++ ".html".toList
      ∧ (∀ small parent k, k ∈ (linkFix small parent).kids → hasTag "a".toList k = true →
          k.attr "href".toList = some (moduleHref (textOf small)))
      ∧ moduleHref "(gl3n.linalg)".toList = "gl3n_linalg.html".toList
      ∧ '.' ∉ replaceDots (t.drop 1).dropLast
      ∧ (moduleHref t).count '.' = 1
      ∧ (t.length < 2 → moduleHref t = ".html".toList) := by
  have h0 : moduleHref t = replaceDots (t.drop 1).dropLast ++ ".html".toList := by
    rw [moduleHref, substr_one]
  refine ⟨h0, ?_, by decide, replaceDots_no_dot _, ?_, ?_⟩
  · intro small parent k hk ha
    cases parent with
    | text d => simp [linkFix, Node.kids] at hk
    | elem tag attrs ks =>
      simp only [linkFix, Node.kids, List.mem_map] at hk
      obtain ⟨k0, _, rfl⟩ := hk
      by_cases h0a : hasTag "a".toList k0 = true
      · rw [if_pos h0a]
        cases k0 with
        | text d => simp [Node.hasTag] at h0a
        | elem t0 a0 kk => exact attr_setAttrIn _ _ _
      · rw [if_neg h0a] at ha
        exact absurd ha h0a
  · rw [h0, List.count_append, List.count_eq_zero_of_not_mem (replaceDots_no_dot _)]
    decide
  · intro hlen
    rw [h0]
    match t, hlen with
    | [], _ => rfl
    | [a], _ => rfl
    | a :: b :: rest, h =>
      simp only [List.length_cons] at h
      omega

/-- Witness of Claim C9: the link of `sampleModule` gets `gl3n_linalg.html`,
and the one-unit text `x` gives `.html`. -/
theorem moduleHref_spec_witness :
    (linkFix (.elem "small".toList [] [.text "(gl3n.linalg)".toList]) sampleModule).kids.map
        (Node.attr "href".toList)
      = [some "gl3n_linalg.html".toList, none]
      ∧ ("x".toList.length < 2 ∧ moduleHref "x".toList = ".html".toList) :=
  ⟨by decide, by decide, (moduleHref_spec "x".toList).2.2.2.2.2 (by decide)⟩

/-! ## Cookies -/

theorem split_of_not_mem (sep : Char) (p : Str) (h : sep ∉ p) : split sep p = [p] := by
  induction p with
  | nil => rfl
  | cons c cs ih =>
    have hc : c ≠ sep := fun e => h (e ▸ List.mem_cons_self _ _)
    have hcs : sep ∉ cs := fun e => h (List.mem_cons_of_mem _ e)
    rw [split, if_neg hc, ih hcs]

theorem split_append_sep (sep : Char) (p q : Str) (h : sep ∉ p) :
    split sep (p ++ sep :: q) = p :: split sep q := by
  induction p with
  | nil => simp [split]
  | cons c cs ih =>
    have hc : c ≠ sep := fun e => h (e ▸ List.mem_cons_self _ _)
    have hcs : sep ∉ cs := fun e => h (List.mem_cons_of_mem _ e)
    rw [List.cons_append, split, if_neg hc, ih hcs]

theorem stripBlanks_replicate (k : Nat) (s : Str) (h : s.head? ≠ some ' ') :
    stripBlanks (List.replicate k ' ' ++ s) = s := by
  induction k with
  | zero =>
    cases s with
    | nil => rfl
    | cons c cs =>
      have hc : c ≠ ' ' := fun e => h (by simp [e])
      simp [stripBlanks, charAt, hc]
  | succ k ih =>
    rw [List.replicate_succ, List.cons_append, stripBlanks]
    simpa [charAt] using ih

/-- The loop of line 160 as the source writes it. -/
theorem stripBlanks_eq (c : Str) :
    stripBlanks c
      = if charAt c 0 = [' '] then stripBlanks (substring c 1 c.length) else c := by
  cases c with
  | nil => rfl
  | cons a as =>
    have h : substring (a :: as) 1 (a :: as).length = as := by
      simp [substring]
    rw [h, stripBlanks]

theorem nameEQ_isPrefix_iff (name n v : Str) (h1 : '=' ∉ name) (h2 : '=' ∉ n) :
    (name ++ ['=']) <+: (n ++ '=' :: v) ↔ n = name := by
  induction name generalizing n with
  | nil =>
    cases n with
    | nil => simp
    | cons c cs =>
      have hc : c ≠ '=' := fun e => h2 (e ▸ List.mem_cons_self _ _)
      simp [List.cons_prefix_cons, Ne.symm hc]
  | cons a as ih =>
    have ha : a ≠ '=' := fun e => h1 (e ▸ List.mem_cons_self _ _)
    have has : '=' ∉ as := fun e => h1 (List.mem_cons_of_mem _ e)
    cases n with
    | nil => simp [List.cons_prefix_cons, ha]
    | cons c cs =>
      have hcs : '=' ∉ cs := fun e => h2 (List.mem_cons_of_mem _ e)
      simp only [List.cons_append, List.cons_prefix_cons, ih cs has hcs, List.cons.injEq]
      constructor
      · rintro ⟨h, rfl⟩
        exact ⟨h.symm, rfl⟩
      · rintro ⟨h, rfl⟩
        exact ⟨h.symm, rfl⟩

theorem substring_value (name v : Str) :
    substring (name ++ '=' :: v) (name ++ ['=']).length (name ++ '=' :: v).length = v := by
  unfold substring
  simp only [List.length_append, List.length_cons, List.length_nil]
  have e1 : min (name.length + (0 + 1)) (name.length + (v.length + 1)) = name.length + 1 := by
    omega
  have e2 : min (name.length + (v.length + 1)) (name.length + (v.length + 1))
      = name.length + (v.length + 1) := by omega
  rw [e1, e2]
  have e3 : min (name.length + 1) (name.length + (v.length + 1)) = name.length + 1 := by omega
  have e4 : max (name.length + 1) (name.length + (v.length + 1)) - (name.length + 1)
      = v.length := by omega
  rw [e3, e4]
  have : List.drop (name.length + 1) (name ++ '=' :: v) = v := by
    simp
  rw [this, List.take_length]

theorem pair_head (n v : Str) (h : n.head? ≠ some ' ') : (n ++ '=' :: v).head? ≠ some ' ' := by
  cases n with
  | nil => simp
  | cons c cs => simpa using h

/-- One turn of the loop of `readCookie` on the piece of a pair, after any
number of blanks. -/
theorem readCookieLoop_pair (name n v : Str) (k : Nat) (rest : List Str)
    (h1 : '=' ∉ name) (hn : nameOK n) :
    readCookieLoop (name ++ ['=']) ((List.replicate k ' ' ++ (n ++ '=' :: v)) :: rest)
      = if n = name then some v else readCookieLoop (name ++ ['=']) rest := by
  rw [readCookieLoop]
  simp only [stripBlanks_replicate k _ (pair_head n v hn.2.2), indexOf_eq_zero_iff,
    nameEQ_isPrefix_iff name n v h1 hn.2.1]
  by_cases e : n = name
  · subst e
    rw [if_pos rfl, if_pos rfl, substring_value]
  · rw [if_neg e, if_neg e]

theorem readCookieLoop_blank (name : Str) (k : Nat) :
    readCookieLoop (name ++ ['=']) [List.replicate k ' '] = none := by
  rw [readCookieLoop]
  have h : stripBlanks (List.replicate k ' ') = [] := by
    simpa using stripBlanks_replicate k [] (by simp)
  simp only [h]
  have : ¬ indexOf [] (name ++ ['=']) = 0 := by
    rw [indexOf_eq_zero_iff]
    simp
  rw [if_neg this]
  rfl

theorem stripBlanks_no_eq (s : Str) (h : '=' ∉ s) : '=' ∉ stripBlanks s := by
  induction s with
  | nil => exact h
  | cons c cs ih =>
    rw [stripBlanks]
    split
    · exact ih fun e => h (List.mem_cons_of_mem _ e)
    · exact h

/-- One turn of the loop of `readCookie` on the text of a cookie without name
whose value holds no `=`: no match. -/
theorem readCookieLoop_nameless (name v : Str) (k : Nat) (rest : List Str) (hv : '=' ∉ v) :
    readCookieLoop (name ++ ['=']) ((List.replicate k ' ' ++ v) :: rest)
      = readCookieLoop (name ++ ['=']) rest := by
  rw [readCookieLoop]
  have hno : '=' ∉ stripBlanks (List.replicate k ' ' ++ v) := by
    apply stripBlanks_no_eq
    simp only [List.mem_append, List.mem_replicate, not_or]
    exact ⟨fun h => absurd h.2 (by decide), hv⟩
  have hne : ¬ indexOf (stripBlanks (List.replicate k ' ' ++ v)) (name ++ ['=']) = 0 := by
    rw [indexOf_eq_zero_iff]
    intro hp
    exact hno (hp.subset (by simp))
  simp only [hne, if_false]

/-- One turn of the loop of `readCookie` on the text of a cookie of the jar. -/
theorem readCookieLoop_item (name : Str) (p : Str × Str) (k : Nat) (rest : List Str)
    (h0 : name ≠ []) (h1 : '=' ∉ name) (hp : nameOK p.1 ∧ ';' ∉ p.2 ∧ (p.1 = [] → '=' ∉ p.2)) :
    readCookieLoop (name ++ ['=']) ((List.replicate k ' ' ++ cookieItem p) :: rest)
      = if p.1 = name then some p.2 else readCookieLoop (name ++ ['=']) rest := by
  obtain ⟨n, v⟩ := p
  unfold cookieItem
  by_cases hn : n = []
  · subst hn
    rw [if_pos rfl, readCookieLoop_nameless name v k rest (hp.2.2 rfl), if_neg (Ne.symm h0)]
  · simp only [hn, if_false]
    exact readCookieLoop_pair name n v k rest h1 hp.1

theorem item_no_sep (p : Str × Str) (k : Nat) (h1 : ';' ∉ p.1) (h2 : ';' ∉ p.2) :
    ';' ∉ List.replicate k ' ' ++ cookieItem p := by
  unfold cookieItem
  split
  · simp only [List.mem_append, List.mem_replicate, not_or]
    exact ⟨fun h => absurd h.2 (by decide), h2⟩
  · simp only [List.mem_append, List.mem_cons, List.mem_replicate, not_or]
    exact ⟨fun h => absurd h.2 (by decide), h1, by decide, h2⟩

/-- What `readCookie` finds in a jar is the value of the first pair of that
name. -/
theorem readCookieLoop_jar (name : Str) (h0 : name ≠ []) (h1 : '=' ∉ name) :
    ∀ (jar : Jar) (k : Nat), jarOK jar →
      readCookieLoop (name ++ ['=']) (split ';' (List.replicate k ' ' ++ cookieString jar))
        = lookup name jar
  | [], k, _ => by
    rw [cookieString, List.append_nil, split_of_not_mem _ _ (by simp), readCookieLoop_blank]
    rfl
  | [q], k, h => by
    have hq := h q (List.mem_cons_self _ _)
    rw [cookieString, split_of_not_mem _ _ (item_no_sep q k hq.1.1 hq.2.1),
      readCookieLoop_item name q k [] h0 h1 hq]
    by_cases e : q.1 = name
    · simp [lookup, e]
    · simp [lookup, e, readCookieLoop]
  | q :: p :: rest, k, h => by
    have hq := h q (List.mem_cons_self _ _)
    have hrest : jarOK (p :: rest) := fun r hr => h r (List.mem_cons_of_mem _ hr)
    have ih := readCookieLoop_jar name h0 h1 (p :: rest) 1 hrest
    have hs : List.replicate k ' ' ++ cookieString (q :: p :: rest)
        = (List.replicate k ' ' ++ cookieItem q) ++ ';' :: (List.replicate 1 ' '
            ++ cookieString (p :: rest)) := by
      simp [cookieString, List.append_assoc]
    rw [hs, split_append_sep _ _ _ (item_no_sep q k hq.1.1 hq.2.1),
      readCookieLoop_item name q k _ h0 h1 hq, ih]
    by_cases e : q.1 = name
    · simp [lookup, e]
    · simp [lookup, e]

theorem readCookie_eq_lookup (jar : Jar) (name : Str) (hjar : jarOK jar) (h0 : name ≠ [])
    (h1 : '=' ∉ name) : readCookie jar name = lookup name jar := by
  have h := readCookieLoop_jar name h0 h1 jar 0 hjar
  simpa [readCookie] using h

theorem takeWhile_ne_of_not_mem (c : Char) (s : Str) (h : c ∉ s) :
    s.takeWhile (fun x => x != c) = s := by
  induction s with
  | nil => rfl
  | cons a as ih =>
    have ha : a ≠ c := fun e => h (e ▸ List.mem_cons_self _ _)
    have has : c ∉ as := fun e => h (List.mem_cons_of_mem _ e)
    simp [List.takeWhile_cons, ha, ih has]

theorem takeWhile_ne_append (c : Char) (s t : Str) (h : c ∉ s) :
    (s ++ c :: t).takeWhile (fun x => x != c) = s := by
  induction s with
  | nil => simp [List.takeWhile_cons]
  | cons a as ih =>
    have ha : a ≠ c := fun e => h (e ▸ List.mem_cons_self _ _)
    have has : c ∉ as := fun e => h (List.mem_cons_of_mem _ e)
    simp [List.takeWhile_cons, ha, ih has]

theorem dropWhile_ne_append (c : Char) (s t : Str) (h : c ∉ s) :
    (s ++ c :: t).dropWhile (fun x => x != c) = c :: t := by
  induction s with
  | nil => simp [List.dropWhile_cons]
  | cons a as ih =>
    have ha : a ≠ c := fun e => h (e ▸ List.mem_cons_self _ _)
    have has : c ∉ as := fun e => h (List.mem_cons_of_mem _ e)
    simp [List.dropWhile_cons, ha, ih has]

theorem dropWhile_isBlank_of_head (s : Str) (h : blankAt s.head? = false) :
    s.dropWhile isBlank = s := by
  cases s with
  | nil => rfl
  | cons c cs =>
    have hc : isBlank c = false := h
    simp [List.dropWhile_cons, hc]

/-- A text with no blank at either end is left as it is by the cookie setter. -/
theorem trimBlanks_of_noBlankEnds (s : Str) (h : noBlankEnds s) : trimBlanks s = s := by
  unfold trimBlanks
  rw [dropWhile_isBlank_of_head s h.1,
    dropWhile_isBlank_of_head s.reverse (by rw [List.head?_reverse]; exact h.2),
    List.reverse_reverse]

theorem nameOK_of_noBlankEnds (s : Str) (h1 : ';' ∉ s) (h2 : '=' ∉ s) (h3 : noBlankEnds s) :
    nameOK s := by
  refine ⟨h1, h2, ?_⟩
  intro e
  have := h3.1
  rw [e] at this
  exact absurd this (by decide)

/-- With a non-empty name free of `;` and `=`, a value free of `;`, and no
blank at the ends of either, `createCookie` stores exactly the pair it was
given. -/
theorem createCookie_eq_store (jar : Jar) (name value : Str) (h0 : name ≠ [])
    (h1 : ';' ∉ name) (h2 : '=' ∉ name) (h3 : ';' ∉ value) (h4 : noBlankEnds name)
    (h5 : noBlankEnds value) :
    createCookie jar name value = store name value jar := by
  have hs : ';' ∉ name ++ '=' :: value := by
    simp only [List.mem_append, List.mem_cons, not_or]
    exact ⟨h1, by decide, h3⟩
  have hmem : '=' ∈ name ++ '=' :: value := by simp
  unfold createCookie setCookie
  simp only [List.append_nil, takeWhile_ne_of_not_mem ';' _ hs, hmem, if_true,
    takeWhile_ne_append '=' _ _ h2, dropWhile_ne_append '=' _ _ h2, List.drop_succ_cons,
    List.drop_zero, trimBlanks_of_noBlankEnds name h4, trimBlanks_of_noBlankEnds value h5]
  rw [if_neg (fun h => h0 h.1)]

theorem jarOK_store (jar : Jar) (name value : Str) (hjar : jarOK jar) (hn : nameOK name)
    (h0 : name ≠ []) (hv : ';' ∉ value) : jarOK (store name value jar) := by
  induction jar with
  | nil =>
    intro p hp
    simp only [store, List.mem_singleton] at hp
    subst hp
    exact ⟨hn, hv, fun e => absurd e h0⟩
  | cons q rest ih =>
    obtain ⟨n, v⟩ := q
    have hq := hjar (n, v) (List.mem_cons_self _ _)
    have hrest : jarOK rest := fun r hr => hjar r (List.mem_cons_of_mem _ hr)
    unfold store
    by_cases e : n = name
    · rw [if_pos e]
      intro p hp
      rcases List.mem_cons.1 hp with hp | hp
      · subst hp
        exact ⟨hq.1, hv, fun e2 => absurd (e ▸ e2) h0⟩
      · exact hrest p hp
    · rw [if_neg e]
      intro p hp
      rcases List.mem_cons.1 hp with hp | hp
      · subst hp
        exact hq
      · exact ih hrest p hp

theorem lookup_store_same (jar : Jar) (name value : Str) :
    lookup name (store name value jar) = some value := by
  induction jar with
  | nil => simp [store, lookup]
  | cons q rest ih =>
    obtain ⟨n, v⟩ := q
    unfold store
    by_cases e : n = name
    · rw [if_pos e]
      simp [lookup, e]
    · rw [if_neg e]
      simpa [lookup, e] using ih

theorem lookup_store_other (jar : Jar) (name other value : Str) (h : other ≠ name) :
    lookup name (store other value jar) = lookup name jar := by
  induction jar with
  | nil => simp [store, lookup, h]
  | cons q rest ih =>
    obtain ⟨n, v⟩ := q
    unfold store
    by_cases e : n = other
    · rw [if_pos e]
      subst e
      simp [lookup, h]
    · rw [if_neg e]
      by_cases e2 : n = name
      · simp [lookup, e2]
      · simpa [lookup, e2] using ih

theorem lookup_absent (jar : Jar) (name : Str) (h : ∀ p ∈ jar, p.1 ≠ name) :
    lookup name jar = none := by
  unfold lookup
  rw [Option.map_eq_none', List.find?_eq_none]
  intro p hp
  simpa using h p hp

/-- Claim C5, amended. The cookie round trip: in every state of the cookie jar
in which no cookie without name has a value containing `=`, for every name
and value that contain no `;` and no `=` and neither start nor end with a
space or a tab, the name not being empty, `readCookie(name)` after
`createCookie(name, value)` is `value`, whatever other pairs the jar lists and
in whatever order, and also after a further `createCookie` of another name
(writing `modules` = `1`, then `jumper` = `0`, and reading `modules` gives
`1`); in such a jar with no pair of that name `readCookie(name)` is `null`. -/
theorem cookie_round_trip (jar : Jar) (name value : Str) (hjar : jarOK jar)
    (hn : name ≠ [] ∧ ';' ∉ name ∧ '=' ∉ name ∧ noBlankEnds name)
    (hv : ';' ∉ value ∧ '=' ∉ value ∧ noBlankEnds value) :
    readCookie (createCookie jar name value) name = some value
      ∧ (∀ other v, other ≠ [] ∧ ';' ∉ other ∧ '=' ∉ other ∧ noBlankEnds other →
          ';' ∉ v ∧ '=' ∉ v ∧ noBlankEnds v → other ≠ name →
          readCookie (createCookie (createCookie jar name value) other v) name = some value)
      ∧ readCookie
          (createCookie (createCookie jar "modules".toList "1".toList) "jumper".toList
            "0".toList)
          "modules".toList = some "1".toList
      ∧ ((∀ p ∈ jar, p.1 ≠ name) → readCookie jar name = none) := by
  have hw : ∀ (j : Jar) (n v : Str), jarOK j →
      n ≠ [] ∧ ';' ∉ n ∧ '=' ∉ n ∧ noBlankEnds n → ';' ∉ v → noBlankEnds v →
      createCookie j n v = store n v j ∧ jarOK (createCookie j n v) := by
    intro j n v hj hn hv hb
    have e := createCookie_eq_store j n v hn.1 hn.2.1 hn.2.2.1 hv hn.2.2.2 hb
    exact ⟨e, e ▸ jarOK_store j n v hj
      (nameOK_of_noBlankEnds n hn.2.1 hn.2.2.1 hn.2.2.2) hn.1 hv⟩
  have h2 : ∀ (j : Jar) (n v other w : Str), jarOK j →
      n ≠ [] ∧ ';' ∉ n ∧ '=' ∉ n ∧ noBlankEnds n → ';' ∉ v → noBlankEnds v →
      other ≠ [] ∧ ';' ∉ other ∧ '=' ∉ other ∧ noBlankEnds other → ';' ∉ w → noBlankEnds w →
      other ≠ n →
      readCookie (createCookie (createCookie j n v) other w) n = some v := by
    intro j n v other w hj hn hv hb ho hw2 hb2 hne
    obtain ⟨e1, ok1⟩ := hw j n v hj hn hv hb
    obtain ⟨e2, ok2⟩ := hw _ other w ok1 ho hw2 hb2
    rw [readCookie_eq_lookup _ n ok2 hn.1 hn.2.2.1, e2, lookup_store_other _ _ _ _ hne, e1,
      lookup_store_same]
  refine ⟨?_, ?_, ?_, ?_⟩
  · obtain ⟨e1, ok1⟩ := hw jar name value hjar hn hv.1 hv.2.2
    rw [readCookie_eq_lookup _ name ok1 hn.1 hn.2.2.1, e1, lookup_store_same]
  · intro other v ho hvo hne
    exact h2 jar name value other v hjar hn hv.1 hv.2.2 ho hvo.1 hvo.2.2 hne
  · exact h2 jar _ _ _ _ hjar (by decide) (by decide) (by decide) (by decide) (by decide)
      (by decide) (by decide)
  · intro h
    rw [readCookie_eq_lookup jar name hjar hn.1 hn.2.2.1, lookup_absent jar name h]

/-- Witness of Claim C5, amended: `modules` = `1` written into `sampleJar` is
listed last and read back; before the write `readCookie` gives `null`. -/
theorem cookie_round_trip_witness :
    jarOK sampleJar
      ∧ readCookie (createCookie sampleJar "modules".toList "1".toList) "modules".toList
        = some "1".toList
      ∧ cookieString (createCookie sampleJar "modules".toList "1".toList)
        = "lang=en; jumper=0; modules=1".toList
      ∧ readCookie sampleJar "modules".toList = none :=
  ⟨by decide,
    (cookie_round_trip sampleJar "modules".toList "1".toList (by decide) (by decide)
      (by decide)).1, by decide, by decide⟩

/-- Claim C5 as stated fails. Each name and value here contains no `;` and no
`=` and does not start with a space. The value `1 ` is stored without its
final blank and read back as `1`, and so is the value that starts with a tab;
the name `a ` is stored as `a`, so
`readCookie` of `a ` finds nothing; a cookie with the empty name is listed as
its value alone, so `readCookie` of the empty name finds nothing; and in a jar
that lists a cookie without name of value `modules=0`, and holds no pair of
name `modules`, `readCookie` of `modules` gives `0`, also after `modules` = `1`
has been written. -/
theorem cookie_round_trip_counterexample :
    (nameOK "k".toList ∧ nameOK "1 ".toList ∧ nameOK "\t1".toList ∧ nameOK "a ".toList
        ∧ nameOK "1".toList ∧ nameOK [] ∧ nameOK "v".toList ∧ nameOK "modules".toList)
      ∧ (readCookie (createCookie [] "k".toList "1 ".toList) "k".toList = some "1".toList
        ∧ cookieString (createCookie [] "k".toList "1 ".toList) = "k=1".toList
        ∧ readCookie (createCookie [] "k".toList "\t1".toList) "k".toList = some "1".toList)
      ∧ (readCookie (createCookie [] "a ".toList "1".toList) "a ".toList = none
        ∧ cookieString (createCookie [] "a ".toList "1".toList) = "a=1".toList)
      ∧ (readCookie (createCookie [] [] "v".toList) [] = none
        ∧ cookieString (createCookie [] [] "v".toList) = "v".toList)
      ∧ (setCookie [] "=modules=0".toList = [([], "modules=0".toList)]
        ∧ readCookie (setCookie [] "=modules=0".toList) "modules".toList = some "0".toList
        ∧ readCookie (createCookie (setCookie [] "=modules=0".toList) "modules".toList
            "1".toList) "modules".toList = some "0".toList) := by
  decide

/-! ## The panel toggles -/

/-- Claim C6, the code at the failing visit. With the stored cookie `modules=1`
and no click, the modules panel is open after `load` while the variable
`modules` is still `false`; `unload` then writes `0`, and the next visit starts
with the panel closed. -/
theorem visit_flag_lags_behind_panel :
    (visit [("modules".toList, "1".toList)] [] []).modulesShown = true
      ∧ (visit [("modules".toList, "1".toList)] [] []).modules = false
      ∧ readCookie (unload (visit [("modules".toList, "1".toList)] [] [])).jar "modules".toList
        = some "0".toList
      ∧ (visit (unload (visit [("modules".toList, "1".toList)] [] [])).jar [] []).modulesShown
        = false := by
  decide

/-! ## The colouring pass -/

theorem textOf_wrapSpan (cls : Str) (n : Node) : textOf (wrapSpan cls n) = textOf n := by
  cases n with
  | text d => rfl
  | elem tag attrs ks => simp [wrapSpan, textOf, textOfAll]

theorem textOf_wrapAll (kws : List Str) (n : Node) : textOf (wrapAll kws n) = textOf n := by
  unfold wrapAll
  induction kws generalizing n with
  | nil => rfl
  | cons k ks ih => rw [List.foldl_cons, ih, textOf_wrapSpan]

theorem colorizeStep_eq (n : Node) (i : Nat) :
    colorizeStep n i
      = wrapAll ([toStr map[i]?].filter fun kw => decide (kw <:+: textOf n)) n := by
  unfold colorizeStep
  by_cases h : toStr map[i]? <:+: textOf n
  · rw [if_pos ((indexOf_nonneg_iff _ _).2 h)]
    simp [wrapAll, List.filter_cons, h]
  · rw [if_neg (fun h2 => h ((indexOf_nonneg_iff _ _).1 h2))]
    simp [wrapAll, List.filter_cons, h]

theorem foldl_colorizeStep (idx : List Nat) (n : Node) :
    idx.foldl colorizeStep n
      = wrapAll ((idx.map fun i => toStr map[i]?).filter fun kw => decide (kw <:+: textOf n))
          n := by
  induction idx generalizing n with
  | nil => rfl
  | cons i rest ih =>
    rw [List.foldl_cons, ih, colorizeStep_eq, textOf_wrapAll, List.map_cons, List.filter_cons]
    by_cases h : toStr map[i]? <:+: textOf n
    · simp [wrapAll, List.filter_cons, h]
    · simp [wrapAll, List.filter_cons, h]

/-- Claim C7, amended. For a node whose text contains at least one of the
keywords `class`, `template`, `struct`, `alias` (and not the text
`undefined`), the colouring pass wraps the content in one `span` for every one
of the four keywords that occurs in the text, in that order from the inside
out, the span for keyword `kw` having class `kw` + `decl`: the span of the
first keyword that occurs is the innermost one and holds the original content;
when only one keyword occurs there is exactly one span. The text of the node
does not change. -/
theorem colorize_wraps_each_keyword (n : Node) (hk : ∃ kw ∈ map, kw <:+: textOf n)
    (hu : ¬ "undefined".toList <:+: textOf n) :
    colorize n = wrapAll (map.filter fun kw => decide (kw <:+: textOf n)) n
      ∧ (∃ kw later, map.filter (fun kw => decide (kw <:+: textOf n)) = kw :: later
          ∧ colorize n = wrapAll later (wrapSpan (kw ++ "decl".toList) n))
      ∧ (∀ kw, map.filter (fun kw => decide (kw <:+: textOf n)) = [kw] →
          colorize n = wrapSpan (kw ++ "decl".toList) n)
      ∧ textOf (colorize n) = textOf n := by
  have h0 : colorize n = wrapAll (map.filter fun kw => decide (kw <:+: textOf n)) n := by
    unfold colorize
    rw [foldl_colorizeStep]
    have hr : (List.range (map.length + 1)).map (fun i => toStr map[i]?)
        = map ++ ["undefined".toList] := by decide
    have hl : ["undefined".toList].filter (fun kw => decide (kw <:+: textOf n)) = [] := by
      rw [List.filter_cons, List.filter_nil, if_neg (by simpa using hu)]
    rw [hr, List.filter_append, hl, List.append_nil]
  refine ⟨h0, ?_, ?_, ?_⟩
  · obtain ⟨kw, hmem, hocc⟩ := hk
    cases hf : map.filter (fun kw => decide (kw <:+: textOf n)) with
    | nil =>
      have : kw ∈ map.filter (fun kw => decide (kw <:+: textOf n)) :=
        List.mem_filter.2 ⟨hmem, by simpa using hocc⟩
      rw [hf] at this
      exact absurd this (List.not_mem_nil _)
    | cons k later =>
      refine ⟨k, later, rfl, ?_⟩
      rw [h0, hf]
      rfl
  · intro kw hf
    rw [h0, hf]
    rfl
  · rw [h0, textOf_wrapAll]

/-- Witness of Claim C7, amended: `sampleStruct` gets the `classdecl` span
inside the `structdecl` span. -/
theorem colorize_wraps_each_keyword_witness :
    (∃ kw ∈ map, kw <:+: textOf sampleStruct)
      ∧ ¬ "undefined".toList <:+: textOf sampleStruct
      ∧ colorize sampleStruct
        = wrapSpan "structdecl".toList (wrapSpan "classdecl".toList sampleStruct) :=
  ⟨by decide, by decide,
    (colorize_wraps_each_keyword sampleStruct (by decide) (by decide)).1.trans rfl⟩

/-- Claim C7 as stated fails. The text of `sampleStruct` holds both `class` and
`struct`; after the colouring pass its content is wrapped in two spans, the
`classdecl` span inside a `structdecl` span, not in the `classdecl` span
alone. -/
theorem colorize_two_spans_counterexample :
    hasClass sampleStruct "decl".toList = true
      ∧ "class".toList <:+: textOf sampleStruct
      ∧ "struct".toList <:+: textOf sampleStruct
      ∧ serializeAll (colorize sampleStruct).kids
        = ("<span class=\"structdecl\"><span class=\"classdecl\">"
            ++ "struct <a name=\"Foo\">Foo</a> : class Bar</span></span>").toList
      ∧ serializeAll (colorize sampleStruct).kids
        ≠ serializeAll (wrapSpan "classdecl".toList sampleStruct).kids := by
  decide

/-- Claim C8, the code at the failing node. The text `int undefined;` holds none
of `class`, `template`, `struct`, `alias`, yet the fifth turn of the loop, at
index `map.length`, wraps the content in a span of class `undefineddecl`. -/
theorem colorize_undefined_wrapped :
    hasClass sampleUndefined "decl".toList = true
      ∧ (∀ kw ∈ map, ¬ kw <:+: textOf sampleUndefined)
      ∧ (map.length, map[map.length]?, toStr map[map.length]?)
        = (4, none, "undefined".toList)
      ∧ serializeAll sampleUndefined.kids = "int undefined;".toList
      ∧ serializeAll (colorize sampleUndefined).kids
        = "<span class=\"undefineddecl\">int undefined;</span>".toList := by
  decide

end Cutedoc
